import Mathlib

/-!
Verification development for the "link shelf" bookmark manager
(src/index.tsx): a client-side app that stores `{id, name, url}` link
records in local storage, adds/deletes/filters them, renders cards with
empty-state messages, and switches themes.

JS strings are embedded as lists of characters (`Str`), so every
operation is executable and decidable. Browser platform primitives
(the URL constructor, JSON serialization, local storage) have no source
in the repository; they are modelled explicitly, each marked
"Modelled from the spec".
-/

/-- JS strings, embedded as lists of characters. -/
abbrev Str := List Char

/-- JS String.prototype.trim: strip whitespace from both ends. -/
def jsTrim (s : Str) : Str :=
  ((s.dropWhile Char.isWhitespace).reverse.dropWhile Char.isWhitespace).reverse

/-- JS String.prototype.toLowerCase (ASCII range, as used by the app). -/
def jsToLower (s : Str) : Str := s.map Char.toLower

/-- JS String.prototype.startsWith. -/
def jsStartsWith (s p : Str) : Bool := p.isPrefixOf s

/-- JS String.prototype.includes: substring containment. -/
def jsIncludes (s sub : Str) : Bool :=
  sub.isPrefixOf s ||
    match s with
    | [] => false
    | _ :: t => jsIncludes t sub

/-- A stored bookmark record: the Link interface of src/index.tsx. -/
structure Link where
  id : Str
  name : Str
  url : Str
deriving DecidableEq, Repr

/-- Outcome of the add-link handler: the resulting in-memory list, the
list passed to saveLinksToStorage (none when persistence was not
triggered), and whether a blocking alert was shown. -/
structure AddOutcome where
  links : List Link
  saved : Option (List Link)
  alerted : Bool
deriving DecidableEq, Repr

/-- URL normalization inside handleAddLink (src/index.tsx lines 163-165):
prepend https:// when neither scheme prefix is present. -/
def normalizeUrl (url : Str) : Str :=
  if !(jsStartsWith url "http://".data) && !(jsStartsWith url "https://".data) then
    "https://".data ++ url
  else
    url

/-- Modelled from the spec: the platform URL constructor, which
handleAddLink uses only as a validity test ("the (possibly-prefixed)
string must parse as a well-formed absolute URL"). The model accepts an
http or https URL with a nonempty remainder after the scheme prefix.
The add-flow theorems quantify over an arbitrary validator; this model
only instantiates witnesses. -/
def isValidUrl (s : Str) : Bool :=
  (jsStartsWith s "http://".data && decide (7 < s.length)) ||
  (jsStartsWith s "https://".data && decide (8 < s.length))

/-- handleAddLink (src/index.tsx lines 154-186). `urlValid` stands for
the platform URL constructor succeeding; `newId` for the
Date.now()-derived id string. Trims both inputs, silently no-ops when
either trims to empty, normalizes the URL, alerts and aborts when
validation fails, otherwise prepends the new record and persists. -/
def handleAddLink (urlValid : Str → Bool) (newId : Str)
    (nameInput urlInput : Str) (links : List Link) : AddOutcome :=
  let name := jsTrim nameInput
  let url0 := jsTrim urlInput
  if name = [] ∨ url0 = [] then
    ⟨links, none, false⟩
  else
    let url := normalizeUrl url0
    if urlValid url then
      let newLink : Link := ⟨newId, name, url⟩
      ⟨newLink :: links, some (newLink :: links), false⟩
    else
      ⟨links, none, true⟩

/-- Outcome of the delete handler: resulting list and what was persisted. -/
structure DeleteOutcome where
  links : List Link
  saved : Option (List Link)
deriving DecidableEq, Repr

/-- handleDeleteLink (src/index.tsx lines 192-206), for a click on the
delete button of the card carrying `linkId`: when the confirm dialog is
accepted, keep exactly the records whose id differs and persist. -/
def handleDeleteLink (confirmed : Bool) (linkId : Str) (links : List Link) : DeleteOutcome :=
  if confirmed then
    let newLinks := links.filter (fun link => link.id != linkId)
    ⟨newLinks, some newLinks⟩
  else
    ⟨links, none⟩

/-- The filtering step of renderLinks (src/index.tsx lines 66-69):
lower-case the trimmed term; when it is empty keep the list, otherwise
keep records whose lower-cased name contains it. -/
def filterLinks (links : List Link) (searchTerm : Str) : List Link :=
  let lowerCaseSearchTerm := jsToLower (jsTrim searchTerm)
  if lowerCaseSearchTerm = [] then
    links
  else
    links.filter (fun link => jsIncludes (jsToLower link.name) lowerCaseSearchTerm)

/-- The innerHTML of the empty-shelf message (src/index.tsx line 73). -/
def emptyShelfHtml : Str :=
  "<p class=\"empty-message\">Your shelf is empty. Add a link to get started!</p>".data

/-- Prefix of the no-results message, up to the interpolated term. -/
def noResultsPre : Str :=
  "<p class=\"empty-message\">No links found matching \"".data

/-- Suffix of the no-results message, after the interpolated term. -/
def noResultsSuf : Str :=
  "\".</p>".data

/-- What renderLinks leaves in the links container: one of the two
empty-state messages (with their innerHTML), or the filtered cards. -/
inductive RenderView where
  | emptyShelf (html : Str)
  | noResults (html : Str)
  | cards (visible : List Link)
deriving DecidableEq, Repr

/-- renderLinks (src/index.tsx lines 63-84): filter, then branch on the
filtered and unfiltered lists being empty; the no-results message
interpolates the raw search term verbatim. -/
def renderLinks (links : List Link) (searchTerm : Str) : RenderView :=
  let filteredLinks := filterLinks links searchTerm
  if filteredLinks.length = 0 then
    if links.length = 0 then
      .emptyShelf emptyShelfHtml
    else
      .noResults (noResultsPre ++ searchTerm ++ noResultsSuf)
  else
    .cards filteredLinks

/-- The document body state the theme controller touches: the class list
and the persisted theme slot. -/
structure ThemeState where
  bodyClasses : List Str
  themeSlot : Option Str
deriving DecidableEq, Repr

/-- applyTheme (src/index.tsx lines 221-228): remove both theme classes,
add the one matching the name (none for any other name, in particular
light), persist the name verbatim. -/
def applyTheme (st : ThemeState) (theme : Str) : ThemeState :=
  let classes := st.bodyClasses.filter
    (fun c => c != "theme-dark".data && c != "theme-sepia".data)
  let classes :=
    if theme = "dark".data then classes ++ ["theme-dark".data]
    else if theme = "sepia".data then classes ++ ["theme-sepia".data]
    else classes
  ⟨classes, some theme⟩

/-- The id generator of handleAddLink (src/index.tsx line 176): the
template literal embedding Date.now(), applied to the current
millisecond timestamp. -/
def idFor (t : Nat) : Str := "link-".data ++ (toString t).data

/-- The double-quote character, written by code point to keep literals
plain. -/
def quoteChar : Char := Char.ofNat 34

/-- The backslash character. -/
def backslashChar : Char := Char.ofNat 92

/-- The opening curly brace character. -/
def lbrace : Char := Char.ofNat 123

/-- The closing curly brace character. -/
def rbrace : Char := Char.ofNat 125

/-- Modelled from the spec: JSON string-character escaping as performed
by the platform JSON.stringify ("serializes the full sequence into a
textual structured format"); quote and backslash are escaped with a
backslash. Control-character escapes are elided: they do not affect the
round-trip guarantee being modelled. -/
def encodeChar (c : Char) : Str :=
  if c = quoteChar ∨ c = backslashChar then [backslashChar, c] else [c]

/-- Body of a JSON string literal: each character escaped as needed. -/
def encodeStringBody : Str → Str
  | [] => []
  | c :: cs => encodeChar c ++ encodeStringBody cs

/-- A JSON string literal: quoted, escaped body. -/
def encodeJsonString (s : Str) : Str :=
  quoteChar :: (encodeStringBody s ++ [quoteChar])

/-- The literal opening a serialized record up to its id value. -/
def keyId : Str := lbrace :: "\"id\":".data

/-- The literal between the id value and the name value. -/
def keyName : Str := ",\"name\":".data

/-- The literal between the name value and the url value. -/
def keyUrl : Str := ",\"url\":".data

/-- Modelled from the spec: JSON.stringify of one Link record, in the
platform's key order and without whitespace. -/
def encodeLink (l : Link) : Str :=
  keyId ++ (encodeJsonString l.id ++ (keyName ++ (encodeJsonString l.name ++
    (keyUrl ++ (encodeJsonString l.url ++ [rbrace])))))

/-- Serialized tail of a record array: comma-separated records, then the
closing bracket. -/
def encodeLinksRest : List Link → Str
  | [] => [']']
  | l :: ls => ',' :: (encodeLink l ++ encodeLinksRest ls)

/-- Modelled from the spec: JSON.stringify of a Link array. -/
def encodeLinksList : List Link → Str
  | [] => "[]".data
  | l :: ls => '[' :: (encodeLink l ++ encodeLinksRest ls)

/-- The string value written to the savedLinks slot
(src/index.tsx line 43). -/
def encodeLinks (linksToSave : List Link) : Str := encodeLinksList linksToSave

/-- Modelled from the spec: the JSON.parse step for a string body, up to
the closing quote; returns the decoded characters and the rest of the
input, or none on malformed input. -/
def decodeStringBody : Str → Option (Str × Str)
  | [] => none
  | c :: rest =>
    if c = quoteChar then some ([], rest)
    else if c = backslashChar then
      match rest with
      | [] => none
      | d :: rest2 =>
        match decodeStringBody rest2 with
        | none => none
        | some (s, r) => some (d :: s, r)
    else
      match decodeStringBody rest with
      | none => none
      | some (s, r) => some (c :: s, r)

/-- A JSON string literal: an opening quote, then the body. -/
def decodeJsonString : Str → Option (Str × Str)
  | [] => none
  | c :: rest => if c = quoteChar then decodeStringBody rest else none

/-- Consume an expected literal prefix from the input. -/
def expect : Str → Str → Option Str
  | [], input => some input
  | _ :: _, [] => none
  | p :: ps, c :: cs => if c = p then expect ps cs else none

/-- Modelled from the spec: the JSON.parse step for one Link record in
the serialized shape produced by encodeLink. -/
def decodeLink (input : Str) : Option (Link × Str) :=
  match expect keyId input with
  | none => none
  | some r1 =>
    match decodeJsonString r1 with
    | none => none
    | some (idStr, r2) =>
      match expect keyName r2 with
      | none => none
      | some r3 =>
        match decodeJsonString r3 with
        | none => none
        | some (nameStr, r4) =>
          match expect keyUrl r4 with
          | none => none
          | some r5 =>
            match decodeJsonString r5 with
            | none => none
            | some (urlStr, r6) =>
              match expect [rbrace] r6 with
              | none => none
              | some r7 => some (⟨idStr, nameStr, urlStr⟩, r7)

/-- Tail of a record array: a closing bracket, or a comma followed by a
record and more tail. The fuel argument bounds the number of records and
makes the recursion structural. -/
def decodeLinksRest : Nat → Str → Option (List Link × Str)
  | _, [] => none
  | fuel, c :: cs =>
    if c = ']' then some ([], cs)
    else if c = ',' then
      match fuel with
      | 0 => none
      | fuel2 + 1 =>
        match decodeLink cs with
        | none => none
        | some (l, r2) =>
          match decodeLinksRest fuel2 r2 with
          | none => none
          | some (ls, r3) => some (l :: ls, r3)
    else none

/-- A record array: an opening bracket, then either a first record and a
tail, or an immediate closing bracket. -/
def decodeLinksList (fuel : Nat) (input : Str) : Option (List Link × Str) :=
  match expect ['['] input with
  | none => none
  | some rest =>
    match decodeLink rest with
    | some (l, r2) =>
      match decodeLinksRest fuel r2 with
      | none => none
      | some (ls, r3) => some (l :: ls, r3)
    | none =>
      match expect [']'] rest with
      | none => none
      | some r2 => some ([], r2)

/-- Modelled from the spec: JSON.parse of a stored savedLinks value,
succeeding exactly on a full serialized Link array; none models the
exception the platform decoder throws on malformed content. -/
def decodeLinks (s : Str) : Option (List Link) :=
  match decodeLinksList s.length s with
  | some (linksRead, []) => some linksRead
  | _ => none

/-- Modelled from the spec: the synchronous string key-value store
(localStorage) backing the persistence adapter. -/
def Storage := Str → Option Str

/-- localStorage.setItem. -/
def setItem (st : Storage) (key value : Str) : Storage :=
  fun q => if q = key then some value else st q

/-- localStorage.getItem. -/
def getItem (st : Storage) (key : Str) : Option Str := st key

/-- saveLinksToStorage (src/index.tsx lines 42-44): serialize the full
list and overwrite the savedLinks slot. -/
def saveLinksToStorage (st : Storage) (linksToSave : List Link) : Storage :=
  setItem st "savedLinks".data (encodeLinks linksToSave)

/-- loadLinksFromStorage (src/index.tsx lines 31-36): an absent slot
leaves the initial empty list; a present slot is deserialized, none
modelling the uncaught JSON.parse exception on malformed content. -/
def loadLinksFromStorage (st : Storage) : Option (List Link) :=
  match getItem st "savedLinks".data with
  | none => some []
  | some storedLinks => decodeLinks storedLinks

/-- Consuming a literal prefix that is present succeeds and returns the
rest. -/
theorem expect_append (p r : Str) : expect p (p ++ r) = some r := by
  induction p with
  | nil => rfl
  | cons c cs ih => simp [expect, ih]

/-- A string body beginning with an unescaped quote decodes as empty. -/
theorem decodeStringBody_quote (r : Str) :
    decodeStringBody (quoteChar :: r) = some ([], r) := by
  rw [decodeStringBody.eq_def]
  simp

/-- A string body beginning with a backslash takes the next character
verbatim. -/
theorem decodeStringBody_escape (c : Char) (rest : Str) :
    decodeStringBody (backslashChar :: c :: rest)
      = match decodeStringBody rest with
        | none => none
        | some (s, r) => some (c :: s, r) := by
  rw [decodeStringBody.eq_def]
  simp [show backslashChar ≠ quoteChar from by decide]

/-- A string body beginning with an ordinary character keeps it. -/
theorem decodeStringBody_other (c : Char) (h1 : c ≠ quoteChar) (h2 : c ≠ backslashChar)
    (rest : Str) :
    decodeStringBody (c :: rest)
      = match decodeStringBody rest with
        | none => none
        | some (s, r) => some (c :: s, r) := by
  rw [decodeStringBody.eq_def]
  simp [h1, h2]

/-- Decoding inverts encoding on string bodies. -/
theorem decodeStringBody_encode (s r : Str) :
    decodeStringBody (encodeStringBody s ++ (quoteChar :: r)) = some (s, r) := by
  induction s generalizing r with
  | nil => simp [encodeStringBody, decodeStringBody_quote]
  | cons c cs ih =>
    by_cases h : c = quoteChar ∨ c = backslashChar
    · simp [encodeStringBody, encodeChar, if_pos h, decodeStringBody_escape, ih]
    · push_neg at h
      simp [encodeStringBody, encodeChar, h.1, h.2, decodeStringBody_other c h.1 h.2, ih]

/-- Decoding inverts encoding on JSON string literals. -/
theorem decodeJsonString_encode (s r : Str) :
    decodeJsonString (encodeJsonString s ++ r) = some (s, r) := by
  simp [encodeJsonString, decodeJsonString, List.append_assoc, decodeStringBody_encode]

/-- Decoding inverts encoding on single records. -/
theorem decodeLink_encode (l : Link) (r : Str) :
    decodeLink (encodeLink l ++ r) = some (l, r) := by
  cases l with
  | mk i n u =>
    simp [decodeLink, encodeLink, List.append_assoc, expect_append, expect,
      decodeJsonString_encode]

/-- Record decoding fails unless the input opens with a brace. -/
theorem decodeLink_notLbrace (c : Char) (h : c ≠ lbrace) (r : Str) :
    decodeLink (c :: r) = none := by
  simp [decodeLink, keyId, expect, h]

/-- The serialized tail is at least as long as the record count. -/
theorem length_le_encodeLinksRest (ls : List Link) :
    ls.length ≤ (encodeLinksRest ls).length := by
  induction ls with
  | nil => simp [encodeLinksRest]
  | cons l ls ih =>
    simp only [encodeLinksRest, List.length_cons, List.length_append]
    omega

/-- The serialized array is at least as long as the record count. -/
theorem length_le_encodeLinksList (L : List Link) :
    L.length ≤ (encodeLinksList L).length := by
  cases L with
  | nil => simp [encodeLinksList]
  | cons l ls =>
    have h := length_le_encodeLinksRest ls
    simp only [encodeLinksList, List.length_cons, List.length_append]
    omega

/-- An array tail starting with the closing bracket decodes as empty. -/
theorem decodeLinksRest_rbracket (fuel : Nat) (r : Str) :
    decodeLinksRest fuel (']' :: r) = some ([], r) := by
  rw [decodeLinksRest.eq_def]
  simp

/-- An array tail starting with a comma decodes one record and recurses. -/
theorem decodeLinksRest_comma (fuel2 : Nat) (cs : Str) :
    decodeLinksRest (fuel2 + 1) (',' :: cs)
      = match decodeLink cs with
        | none => none
        | some (l, r2) =>
          match decodeLinksRest fuel2 r2 with
          | none => none
          | some (ls, r3) => some (l :: ls, r3) := by
  rw [decodeLinksRest.eq_def]
  simp [show (',' : Char) ≠ ']' from by decide]

/-- Decoding inverts encoding on array tails, given enough fuel. -/
theorem decodeLinksRest_encode (ls : List Link) (fuel : Nat) (r : Str)
    (h : ls.length ≤ fuel) :
    decodeLinksRest fuel (encodeLinksRest ls ++ r) = some (ls, r) := by
  induction ls generalizing fuel r with
  | nil => simp [encodeLinksRest, decodeLinksRest_rbracket]
  | cons l ls ih =>
    cases fuel with
    | zero => simp at h
    | succ fuel2 =>
      have h2 : ls.length ≤ fuel2 := by simpa using h
      simp only [encodeLinksRest, List.cons_append, List.append_assoc]
      simp [decodeLinksRest_comma, decodeLink_encode, ih fuel2 r h2]

/-- Decoding inverts encoding on whole arrays, given enough fuel. -/
theorem decodeLinksList_encode (L : List Link) (fuel : Nat) (r : Str)
    (h : L.length ≤ fuel + 1) :
    decodeLinksList fuel (encodeLinksList L ++ r) = some (L, r) := by
  cases L with
  | nil =>
    have hdata : ("[]".data : Str) = ['[', ']'] := by decide
    simp [encodeLinksList, hdata, decodeLinksList, expect,
      decodeLink_notLbrace ']' (by decide)]
  | cons l ls =>
    have h2 : ls.length ≤ fuel := by simpa using h
    simp only [encodeLinksList, List.cons_append, List.append_assoc]
    simp [decodeLinksList, expect, decodeLink_encode,
      decodeLinksRest_encode ls fuel r h2]

/-- Deserializing a serialized link list recovers it exactly. -/
theorem decodeLinks_encode (L : List Link) : decodeLinks (encodeLinks L) = some L := by
  have h1 : L.length ≤ (encodeLinksList L).length + 1 :=
    le_trans (length_le_encodeLinksList L) (Nat.le_succ _)
  have h2 := decodeLinksList_encode L (encodeLinksList L).length [] h1
  rw [List.append_nil] at h2
  simp [decodeLinks, encodeLinks, h2]

/-- One applyTheme call leaves the dark class present exactly when the
name is dark, and the sepia class exactly when the name is sepia. -/
theorem applyTheme_step_mem (st : ThemeState) (t : Str) :
    ("theme-dark".data ∈ (applyTheme st t).bodyClasses ↔ t = "dark".data) ∧
    ("theme-sepia".data ∈ (applyTheme st t).bodyClasses ↔ t = "sepia".data) := by
  have hds : ("theme-dark".data : Str) ≠ "theme-sepia".data := by decide
  have hdk : ("dark".data : Str) ≠ "sepia".data := by decide
  constructor
  · by_cases h1 : t = "dark".data
    · simp [applyTheme, h1, List.mem_filter]
    · by_cases h2 : t = "sepia".data
      · simp [applyTheme, h1, h2, List.mem_filter, hds]
      · simp [applyTheme, h1, h2, List.mem_filter]
  · by_cases h1 : t = "dark".data
    · simp [applyTheme, h1, List.mem_filter, hds.symm, hdk.symm]
    · by_cases h2 : t = "sepia".data
      · simp [applyTheme, h1, h2, List.mem_filter]
      · simp [applyTheme, h1, h2, List.mem_filter]

/-- C1: an add whose name and URL are non-empty after trimming and whose
URL validates grows the unfiltered list by exactly one record, prepends
the new record (so all previous records are unchanged and keep their
relative order as the tail), and persists the full resulting list. -/
theorem handleAddLink_valid_prepends (urlValid : Str → Bool) (newId nameInput urlInput : Str)
    (links : List Link)
    (hname : jsTrim nameInput ≠ []) (hurl : jsTrim urlInput ≠ [])
    (hvalid : urlValid (normalizeUrl (jsTrim urlInput)) = true) :
    (handleAddLink urlValid newId nameInput urlInput links).links
        = ⟨newId, jsTrim nameInput, normalizeUrl (jsTrim urlInput)⟩ :: links ∧
    (handleAddLink urlValid newId nameInput urlInput links).links.length = links.length + 1 ∧
    (handleAddLink urlValid newId nameInput urlInput links).saved
        = some ((handleAddLink urlValid newId nameInput urlInput links).links) := by
  simp [handleAddLink, hname, hurl, hvalid]

/-- Concrete instance of the C1 theorem. -/
theorem handleAddLink_valid_prepends_witness :
    (handleAddLink isValidUrl "link-1".data "GitHub".data "github.com".data
        [⟨"link-0".data, "Old".data, "https://old.example".data⟩]).links
      = ⟨"link-1".data, "GitHub".data, "https://github.com".data⟩ ::
          [⟨"link-0".data, "Old".data, "https://old.example".data⟩] := by
  have h := handleAddLink_valid_prepends isValidUrl "link-1".data "GitHub".data
    "github.com".data [⟨"link-0".data, "Old".data, "https://old.example".data⟩]
    (by decide) (by decide) (by decide)
  rw [h.1]
  decide

/-- C2: a confirmed delete keeps exactly the records whose id differs
(and so removes all matching records and no others, preserving order),
is a no-op when no record carries the id, and persists the result. -/
theorem handleDeleteLink_spec (linkId : Str) (links : List Link) :
    (handleDeleteLink true linkId links).links = links.filter (fun l => l.id != linkId) ∧
    (∀ l, l ∈ (handleDeleteLink true linkId links).links ↔ l ∈ links ∧ l.id ≠ linkId) ∧
    ((handleDeleteLink true linkId links).links).Sublist links ∧
    ((∀ l ∈ links, l.id ≠ linkId) → (handleDeleteLink true linkId links).links = links) ∧
    (handleDeleteLink true linkId links).saved
        = some ((handleDeleteLink true linkId links).links) := by
  refine ⟨rfl, ?_, ?_, ?_, rfl⟩
  · intro l
    simp [handleDeleteLink, List.mem_filter]
  · exact List.filter_sublist links
  · intro h
    simp only [handleDeleteLink, if_pos]
    exact List.filter_eq_self.mpr (fun l hl => by simpa using h l hl)

/-- Concrete instance of the C2 theorem: a present id is removed, an
absent id is a no-op. -/
theorem handleDeleteLink_spec_witness :
    (handleDeleteLink true "l1".data
        [⟨"l1".data, "A".data, "u".data⟩, ⟨"l2".data, "B".data, "v".data⟩]).links
      = [⟨"l2".data, "B".data, "v".data⟩] ∧
    (handleDeleteLink true "l9".data
        [⟨"l1".data, "A".data, "u".data⟩, ⟨"l2".data, "B".data, "v".data⟩]).links
      = [⟨"l1".data, "A".data, "u".data⟩, ⟨"l2".data, "B".data, "v".data⟩] := by
  constructor
  · rw [(handleDeleteLink_spec "l1".data _).1]
    decide
  · exact (handleDeleteLink_spec "l9".data _).2.2.2.1 (by decide)

/-- C3: filtering is the identity when the term trims to empty, is a
sublist of the input (order preserved), selects exactly the records
whose lower-cased name contains the lower-cased trimmed term, and
depends on names only: renaming-preserving record maps commute with it. -/
theorem filterLinks_spec (links : List Link) (term : Str) :
    (jsTrim term = [] → filterLinks links term = links) ∧
    (filterLinks links term).Sublist links ∧
    (jsTrim term ≠ [] → ∀ l, l ∈ filterLinks links term ↔
        l ∈ links ∧ jsIncludes (jsToLower l.name) (jsToLower (jsTrim term)) = true) ∧
    (∀ f : Link → Link, (∀ l, (f l).name = l.name) →
      filterLinks (links.map f) term = (filterLinks links term).map f) := by
  refine ⟨?_, ?_, ?_, ?_⟩
  · intro h
    simp [filterLinks, jsToLower, h]
  · by_cases h : jsToLower (jsTrim term) = []
    · simp [filterLinks, h]
    · simp only [filterLinks, if_neg h]
      exact List.filter_sublist links
  · intro h l
    have h2 : jsToLower (jsTrim term) ≠ [] := by
      simpa [jsToLower] using h
    simp [filterLinks, h2, List.mem_filter]
  · intro f hf
    by_cases h : jsToLower (jsTrim term) = []
    · simp [filterLinks, h]
    · simp only [filterLinks, if_neg h]
      rw [List.filter_map]
      congr 1
      apply List.filter_congr
      intro l _
      simp [Function.comp, hf]

/-- Concrete instance of the C3 theorem: the GitHub/gitlab/Reddit example
with term git keeps the first two in order and excludes Reddit. -/
theorem filterLinks_spec_witness :
    jsTrim "git".data ≠ [] ∧
    ((⟨"l1".data, "GitHub".data, "https://github.com".data⟩ : Link) ∈ filterLinks
        [⟨"l1".data, "GitHub".data, "https://github.com".data⟩,
         ⟨"l2".data, "gitlab".data, "https://gitlab.com".data⟩,
         ⟨"l3".data, "Reddit".data, "https://reddit.com".data⟩] "git".data ↔
      (⟨"l1".data, "GitHub".data, "https://github.com".data⟩ : Link) ∈
        [⟨"l1".data, "GitHub".data, "https://github.com".data⟩,
         ⟨"l2".data, "gitlab".data, "https://gitlab.com".data⟩,
         ⟨"l3".data, "Reddit".data, "https://reddit.com".data⟩] ∧
      jsIncludes (jsToLower "GitHub".data) (jsToLower (jsTrim "git".data)) = true) ∧
    filterLinks
        [⟨"l1".data, "GitHub".data, "https://github.com".data⟩,
         ⟨"l2".data, "gitlab".data, "https://gitlab.com".data⟩,
         ⟨"l3".data, "Reddit".data, "https://reddit.com".data⟩] "git".data
      = [⟨"l1".data, "GitHub".data, "https://github.com".data⟩,
         ⟨"l2".data, "gitlab".data, "https://gitlab.com".data⟩] :=
  ⟨by decide,
   (filterLinks_spec _ "git".data).2.2.1 (by decide) _,
   by decide⟩

/-- C4: when the trimmed inputs are non-empty but the normalized URL
fails validation, the add alerts and aborts: the list is unchanged and
nothing is persisted. -/
theorem handleAddLink_invalid_aborts (urlValid : Str → Bool) (newId nameInput urlInput : Str)
    (links : List Link)
    (hname : jsTrim nameInput ≠ []) (hurl : jsTrim urlInput ≠ [])
    (hvalid : urlValid (normalizeUrl (jsTrim urlInput)) = false) :
    handleAddLink urlValid newId nameInput urlInput links = ⟨links, none, true⟩ := by
  simp [handleAddLink, hname, hurl, hvalid]

/-- Concrete instance of the C4 theorem at the spec's example input
http:// (which fails validation). -/
theorem handleAddLink_invalid_aborts_witness :
    handleAddLink isValidUrl "link-1".data "A".data "http://".data
        [⟨"l1".data, "A".data, "u".data⟩]
      = ⟨[⟨"l1".data, "A".data, "u".data⟩], none, true⟩ :=
  handleAddLink_invalid_aborts isValidUrl "link-1".data "A".data "http://".data _
    (by decide) (by decide) (by decide)

/-- C5: when the name or the URL trims to empty, the add is a silent
no-op: no alert, unchanged list, nothing persisted. -/
theorem handleAddLink_empty_noop (urlValid : Str → Bool) (newId nameInput urlInput : Str)
    (links : List Link)
    (h : jsTrim nameInput = [] ∨ jsTrim urlInput = []) :
    handleAddLink urlValid newId nameInput urlInput links = ⟨links, none, false⟩ := by
  simp only [handleAddLink]
  rw [if_pos h]

/-- Concrete instance of the C5 theorem at a whitespace-only name. -/
theorem handleAddLink_empty_noop_witness :
    handleAddLink isValidUrl "link-1".data "   ".data "example.com".data
        [⟨"l1".data, "A".data, "u".data⟩]
      = ⟨[⟨"l1".data, "A".data, "u".data⟩], none, false⟩ :=
  handleAddLink_empty_noop isValidUrl "link-1".data "   ".data "example.com".data _
    (Or.inl (by decide))

/-- C6 counterexample: the input " example.com" (leading space) starts
with neither scheme prefix, the add succeeds, yet the stored URL is
https://example.com, not the raw input with https:// prepended — the
code normalizes the trimmed input, not the user-supplied string. -/
theorem normalizeUrl_trim_counterexample :
    jsStartsWith " example.com".data "http://".data = false ∧
    jsStartsWith " example.com".data "https://".data = false ∧
    (handleAddLink isValidUrl "link-1".data "A".data " example.com".data []).links.map Link.url
      = ["https://example.com".data] ∧
    "https://example.com".data ≠ "https://".data ++ " example.com".data := by decide

/-- C6 as amended: on a successful add the stored URL is the normalized
trimmed input; normalization prepends https:// exactly when the trimmed
input starts with neither http:// nor https://, and otherwise stores it
as-is. -/
theorem handleAddLink_url_normalized (urlValid : Str → Bool) (newId nameInput urlInput : Str)
    (links : List Link)
    (hname : jsTrim nameInput ≠ []) (hurl : jsTrim urlInput ≠ [])
    (hvalid : urlValid (normalizeUrl (jsTrim urlInput)) = true) :
    ((handleAddLink urlValid newId nameInput urlInput links).links.map Link.url).head?
        = some (normalizeUrl (jsTrim urlInput)) ∧
    (jsStartsWith (jsTrim urlInput) "http://".data = false →
      jsStartsWith (jsTrim urlInput) "https://".data = false →
      normalizeUrl (jsTrim urlInput) = "https://".data ++ jsTrim urlInput) ∧
    ((jsStartsWith (jsTrim urlInput) "http://".data = true ∨
      jsStartsWith (jsTrim urlInput) "https://".data = true) →
      normalizeUrl (jsTrim urlInput) = jsTrim urlInput) := by
  refine ⟨?_, ?_, ?_⟩
  · simp [handleAddLink, hname, hurl, hvalid]
  · intro h1 h2
    simp [normalizeUrl, h1, h2]
  · intro h
    rcases h with h | h <;> simp [normalizeUrl, h]

/-- Concrete instance of the amended C6 theorem at the spec's example:
input example.com is stored as https://example.com. -/
theorem handleAddLink_url_normalized_witness :
    ((handleAddLink isValidUrl "link-1".data "Example".data "example.com".data []).links.map
        Link.url).head? = some "https://example.com".data ∧
    normalizeUrl "example.com".data = "https://".data ++ "example.com".data := by
  have h := handleAddLink_url_normalized isValidUrl "link-1".data "Example".data
    "example.com".data [] (by decide) (by decide) (by decide)
  constructor
  · rw [h.1]
    decide
  · have h2 := h.2.1 (by decide) (by decide)
    rw [show jsTrim "example.com".data = "example.com".data from by decide] at h2
    exact h2

/-- C7: loading links right after saving a list to the same persistence
slot recovers the list exactly. -/
theorem loadLinks_saveLinks_roundtrip (st : Storage) (L : List Link) :
    loadLinksFromStorage (saveLinksToStorage st L) = some L := by
  simp [loadLinksFromStorage, saveLinksToStorage, getItem, setItem, decodeLinks_encode]

/-- C8 counterexample: two adds sharing the millisecond timestamp 5
leave two distinct records in the store with the same id link-5, so ids
are not unique across records created by immediately consecutive adds. -/
theorem handleAddLink_id_collision :
    (handleAddLink isValidUrl (idFor 5) "B".data "b.com".data
        (handleAddLink isValidUrl (idFor 5) "A".data "a.com".data []).links).links
      = [⟨idFor 5, "B".data, "https://b.com".data⟩, ⟨idFor 5, "A".data, "https://a.com".data⟩] ∧
    (⟨idFor 5, "B".data, "https://b.com".data⟩ : Link)
        ≠ ⟨idFor 5, "A".data, "https://a.com".data⟩ ∧
    Link.id ⟨idFor 5, "B".data, "https://b.com".data⟩
        = Link.id ⟨idFor 5, "A".data, "https://a.com".data⟩ := by decide

/-- C8 as amended: a successful add whose generated id is not already
present keeps the stored ids pairwise distinct; uniqueness therefore
holds exactly as long as each add's timestamp-derived id is fresh. -/
theorem handleAddLink_fresh_id_nodup (urlValid : Str → Bool) (newId nameInput urlInput : Str)
    (links : List Link)
    (hname : jsTrim nameInput ≠ []) (hurl : jsTrim urlInput ≠ [])
    (hvalid : urlValid (normalizeUrl (jsTrim urlInput)) = true)
    (hfresh : newId ∉ links.map Link.id)
    (hnodup : (links.map Link.id).Nodup) :
    ((handleAddLink urlValid newId nameInput urlInput links).links.map Link.id).Nodup := by
  simp [handleAddLink, hname, hurl, hvalid, List.nodup_cons, hfresh, hnodup]

/-- Concrete instance of the amended C8 theorem: adding with the fresh
timestamp 6 over a record stamped 5 keeps ids distinct. -/
theorem handleAddLink_fresh_id_nodup_witness :
    ((handleAddLink isValidUrl (idFor 6) "B".data "b.com".data
        [⟨idFor 5, "A".data, "https://a.com".data⟩]).links.map Link.id).Nodup :=
  handleAddLink_fresh_id_nodup isValidUrl (idFor 6) "B".data "b.com".data
    [⟨idFor 5, "A".data, "https://a.com".data⟩]
    (by decide) (by decide) (by decide) (by decide) (by decide)

/-- C9: when the filtered result is empty, the renderer shows the
shelf-is-empty message exactly when the store itself is empty, and
otherwise shows the no-results message whose innerHTML interpolates the
raw, unescaped search term verbatim between the fixed prefix and
suffix. -/
theorem renderLinks_empty_states (links : List Link) (term : Str)
    (hempty : filterLinks links term = []) :
    ((renderLinks links term = .emptyShelf emptyShelfHtml) ↔ links = []) ∧
    (links ≠ [] →
      renderLinks links term = .noResults (noResultsPre ++ term ++ noResultsSuf)) := by
  constructor
  · constructor
    · intro h
      by_contra hne
      simp [renderLinks, hempty, List.length_eq_zero, hne] at h
    · intro h
      subst h
      simp [renderLinks, hempty]
  · intro hne
    simp [renderLinks, hempty, List.length_eq_zero, hne]

/-- Concrete instance of the C9 theorem: a non-empty store with no
matches for zzz shows the no-results message carrying zzz verbatim. -/
theorem renderLinks_empty_states_witness :
    filterLinks [⟨"l1".data, "Alpha".data, "https://a.com".data⟩] "zzz".data = [] ∧
    renderLinks [⟨"l1".data, "Alpha".data, "https://a.com".data⟩] "zzz".data
      = .noResults (noResultsPre ++ "zzz".data ++ noResultsSuf) := by
  refine ⟨by decide, ?_⟩
  exact (renderLinks_empty_states _ _ (by decide)).2 (by decide)

/-- C10: after any non-empty sequence of applyTheme calls, the dark and
sepia classes are never both active, and each is active exactly when the
last applied theme name matches it — so any other name, in particular
light, leaves neither active. -/
theorem applyTheme_exclusive (st : ThemeState) (ts : List Str) (t : Str) :
    ¬("theme-dark".data ∈ ((ts ++ [t]).foldl applyTheme st).bodyClasses ∧
      "theme-sepia".data ∈ ((ts ++ [t]).foldl applyTheme st).bodyClasses) ∧
    ("theme-dark".data ∈ ((ts ++ [t]).foldl applyTheme st).bodyClasses ↔ t = "dark".data) ∧
    ("theme-sepia".data ∈ ((ts ++ [t]).foldl applyTheme st).bodyClasses ↔ t = "sepia".data) := by
  rw [List.foldl_append]
  simp only [List.foldl_cons, List.foldl_nil]
  have h := applyTheme_step_mem (ts.foldl applyTheme st) t
  refine ⟨?_, h.1, h.2⟩
  rintro ⟨hd, hs⟩
  rw [h.1] at hd
  rw [h.2] at hs
  exact absurd (hd ▸ hs) (by decide)

/-- Concrete instance of the C10 theorem: applying dark then sepia
leaves exactly the sepia class active. -/
theorem applyTheme_exclusive_witness :
    ¬("theme-dark".data ∈
        ((["dark".data] ++ ["sepia".data]).foldl applyTheme ⟨[], none⟩).bodyClasses ∧
      "theme-sepia".data ∈
        ((["dark".data] ++ ["sepia".data]).foldl applyTheme ⟨[], none⟩).bodyClasses) ∧
    ((["dark".data] ++ ["sepia".data]).foldl applyTheme ⟨[], none⟩).bodyClasses
      = ["theme-sepia".data] :=
  ⟨(applyTheme_exclusive ⟨[], none⟩ ["dark".data] "sepia".data).1, by decide⟩
